import Mathlib

/-!
Verification of the conversation-orchestration core of the `sparkathon`
shopping-assistant repository, shallowly embedded from
`src/Agent/shopping_tools.py` and `src/Agent/shopping_assistant.py`.

Conventions of the embedding:
* Python floats are modelled as rationals (`ℚ`); the constants 0.8 and 0.3
  become `4/5` and `3/10`.
* Wall-clock time (`time.time()`) is passed explicitly as a `Nat` argument.
* Network I/O is modelled by an oracle `Nat → HttpOutcome` giving the outcome
  of the n-th HTTP request issued by a call, and each client function returns
  the number of requests it issued, so "performs no network I/O" is the
  proposition that this count is 0.
* Response bodies are abstracted: only the information the control flow
  inspects (status codes, exception class) is kept.
-/

/-! ## Circuit breaker (`shopping_tools.py`, lines 50–79) -/

/-- The three states of `CircuitBreaker.state` (`'CLOSED'`, `'OPEN'`,
`'HALF_OPEN'` strings in the Python source). -/
inductive BreakerState where
  | CLOSED
  | OPEN
  | HALF_OPEN
deriving DecidableEq, Repr

/-- `CircuitBreaker` (`shopping_tools.py` lines 50–58).  `last_failure_time`
is `None` until the first recorded failure. -/
structure CircuitBreaker where
  failure_threshold : Nat
  timeout : Nat
  failure_count : Nat
  last_failure_time : Option Nat
  state : BreakerState
deriving DecidableEq, Repr

/-- `CircuitBreaker.__init__` (lines 53–58). -/
def CircuitBreaker.init (failure_threshold timeout : Nat) : CircuitBreaker :=
  { failure_threshold := failure_threshold
    timeout := timeout
    failure_count := 0
    last_failure_time := none
    state := .CLOSED }

/-- `CircuitBreaker.is_open` (lines 60–67); `now` is the value of
`time.time()`.  Returns the boolean result together with the possibly
updated breaker (the OPEN → HALF_OPEN transition mutates `self`).
The `none` branch under `OPEN` is unreachable from the initial state (the
Python would raise a `TypeError` there); it is mapped to `(true, cb)` and no
theorem depends on it. -/
def CircuitBreaker.is_open (cb : CircuitBreaker) (now : Nat) : Bool × CircuitBreaker :=
  match cb.state with
  | .OPEN =>
    match cb.last_failure_time with
    | some t =>
      if now - t > cb.timeout then (false, { cb with state := .HALF_OPEN })
      else (true, cb)
    | none => (true, cb)
  | _ => (false, cb)

/-- `CircuitBreaker.record_success` (lines 69–72). -/
def CircuitBreaker.record_success (cb : CircuitBreaker) : CircuitBreaker :=
  { cb with failure_count := 0, state := .CLOSED }

/-- `CircuitBreaker.record_failure` (lines 74–79); `now` is `time.time()`. -/
def CircuitBreaker.record_failure (cb : CircuitBreaker) (now : Nat) : CircuitBreaker :=
  let cb' := { cb with failure_count := cb.failure_count + 1, last_failure_time := some now }
  if cb.failure_threshold ≤ cb'.failure_count then { cb' with state := .OPEN } else cb'

/-- The three operations a client can perform on a breaker, used to describe
reachable breaker states. -/
inductive BOp where
  | success
  | failure (now : Nat)
  | check (now : Nat)
deriving DecidableEq, Repr

/-- Apply one breaker operation (a `record_success`, `record_failure`, or
`is_open` call) to a breaker. -/
def applyBOp (cb : CircuitBreaker) : BOp → CircuitBreaker
  | .success => cb.record_success
  | .failure now => cb.record_failure now
  | .check now => (cb.is_open now).2

/-- Run a sequence of breaker operations from a starting breaker. -/
def runBOps (cb : CircuitBreaker) (ops : List BOp) : CircuitBreaker :=
  ops.foldl applyBOp cb

/-! ### Breaker lemmas -/

theorem record_failure_count (cb : CircuitBreaker) (now : Nat) :
    (cb.record_failure now).failure_count = cb.failure_count + 1 := by
  simp only [CircuitBreaker.record_failure]
  split <;> rfl

theorem record_failure_threshold (cb : CircuitBreaker) (now : Nat) :
    (cb.record_failure now).failure_threshold = cb.failure_threshold := by
  simp only [CircuitBreaker.record_failure]
  split <;> rfl

theorem record_failure_opens (cb : CircuitBreaker) (now : Nat)
    (h : cb.failure_threshold ≤ cb.failure_count + 1) :
    (cb.record_failure now).state = .OPEN := by
  simp only [CircuitBreaker.record_failure, h, if_pos]

/-- A nonempty run of `record_failure` calls whose length pushes the count to
the threshold ends in the `OPEN` state. -/
theorem foldl_record_failure_opens :
    ∀ (ts : List Nat) (cb : CircuitBreaker), ts ≠ [] →
      cb.failure_threshold ≤ cb.failure_count + ts.length →
      (ts.foldl CircuitBreaker.record_failure cb).state = .OPEN := by
  intro ts
  induction ts with
  | nil => intro cb h _; exact absurd rfl h
  | cons t ts ih =>
    intro cb _ hle
    cases ts with
    | nil =>
      simp only [List.foldl]
      exact record_failure_opens cb t (by simpa using hle)
    | cons t' ts' =>
      simp only [List.foldl]
      apply ih _ (by simp)
      rw [record_failure_count, record_failure_threshold]
      simpa [Nat.add_assoc, Nat.add_comm, Nat.add_left_comm] using hle

/-- An `is_open` call never changes the failure counters, and can only leave
the breaker `OPEN` if it was already `OPEN`. -/
theorem is_open_snd (cb : CircuitBreaker) (now : Nat) :
    ((cb.is_open now).2).failure_threshold = cb.failure_threshold ∧
    ((cb.is_open now).2).failure_count = cb.failure_count ∧
    (((cb.is_open now).2).state = .OPEN → cb.state = .OPEN) := by
  unfold CircuitBreaker.is_open
  split
  · split
    · split <;> simp_all
    · simp
  · simp_all

/-- Invariant: an `OPEN` breaker has accumulated at least `failure_threshold`
failures.  Preserved by every breaker operation. -/
def BreakerInv (cb : CircuitBreaker) : Prop :=
  cb.state = .OPEN → cb.failure_threshold ≤ cb.failure_count

theorem breakerInv_applyBOp (cb : CircuitBreaker) (op : BOp)
    (h : BreakerInv cb) : BreakerInv (applyBOp cb op) := by
  cases op with
  | success =>
    intro hst
    simp [applyBOp, CircuitBreaker.record_success] at hst
  | failure now =>
    intro hst
    unfold applyBOp CircuitBreaker.record_failure at hst ⊢
    by_cases hle : cb.failure_threshold ≤ cb.failure_count + 1
    · simp only [hle, if_pos]
    · simp only [hle, if_neg, not_false_iff] at hst ⊢
      have := h hst
      omega
  | check now =>
    intro hst
    obtain ⟨hth, hc, hop⟩ := is_open_snd cb now
    unfold applyBOp at hst ⊢
    rw [hth, hc]
    exact h (hop hst)

theorem breakerInv_runBOps (cb : CircuitBreaker) (ops : List BOp)
    (h : BreakerInv cb) : BreakerInv (runBOps cb ops) := by
  induction ops generalizing cb with
  | nil => exact h
  | cons op ops ih => exact ih _ (breakerInv_applyBOp cb op h)

theorem applyBOp_threshold (cb : CircuitBreaker) (op : BOp) :
    (applyBOp cb op).failure_threshold = cb.failure_threshold := by
  cases op with
  | success => rfl
  | failure now => exact record_failure_threshold cb now
  | check now => exact (is_open_snd cb now).1

theorem runBOps_threshold (cb : CircuitBreaker) (ops : List BOp) :
    (runBOps cb ops).failure_threshold = cb.failure_threshold := by
  induction ops generalizing cb with
  | nil => rfl
  | cons op ops ih => exact (ih (applyBOp cb op)).trans (applyBOp_threshold cb op)

theorem record_failure_last (cb : CircuitBreaker) (now : Nat) :
    (cb.record_failure now).last_failure_time = some now := by
  simp only [CircuitBreaker.record_failure]
  split <;> rfl

theorem record_failure_timeout (cb : CircuitBreaker) (now : Nat) :
    (cb.record_failure now).timeout = cb.timeout := by
  simp only [CircuitBreaker.record_failure]
  split <;> rfl

/-- An `OPEN` breaker whose timeout has not yet expired reports itself open
and stays unchanged (lines 62–66). -/
theorem is_open_within (cb : CircuitBreaker) (now t : Nat) (hs : cb.state = .OPEN)
    (hl : cb.last_failure_time = some t) (hle : now - t ≤ cb.timeout) :
    cb.is_open now = (true, cb) := by
  have hnot : ¬ (now - t > cb.timeout) := Nat.not_lt.mpr hle
  simp [CircuitBreaker.is_open, hs, hl, hnot]

/-- An `OPEN` breaker whose timeout has expired transitions to `HALF_OPEN`
and reports itself not open (lines 62–65). -/
theorem is_open_expired (cb : CircuitBreaker) (now t : Nat) (hs : cb.state = .OPEN)
    (hl : cb.last_failure_time = some t) (hgt : cb.timeout < now - t) :
    cb.is_open now = (false, { cb with state := .HALF_OPEN }) := by
  simp [CircuitBreaker.is_open, hs, hl, hgt]

/-- C1: the circuit breaker follows the specified lifecycle.  For the breaker
the API client builds (`failure_threshold = 5`, `timeout = 60`):
(a) it starts `CLOSED`;
(b) a run of at least 5 consecutive `record_failure` calls from the initial
    state leaves it `OPEN`;
(c) while `OPEN` and at most 60 seconds past the last failure, `is_open`
    returns `true` (so a guarded call is rejected) and the breaker is
    unchanged;
(d) once more than 60 seconds have elapsed, the single next `is_open` check
    returns `false` (exactly one trial call is let through) and moves the
    breaker to `HALF_OPEN`; from there `record_success` returns it to
    `CLOSED` with a zeroed failure count, while `record_failure` returns it
    to `OPEN`, after which `is_open` again rejects calls for the next 60
    seconds. -/
theorem circuit_breaker_lifecycle :
    (CircuitBreaker.init 5 60).state = .CLOSED
    ∧ (∀ ts : List Nat, 5 ≤ ts.length →
        (ts.foldl CircuitBreaker.record_failure (CircuitBreaker.init 5 60)).state = .OPEN)
    ∧ (∀ (cb : CircuitBreaker) (now t : Nat), cb.timeout = 60 → cb.state = .OPEN →
        cb.last_failure_time = some t → now - t < 60 → cb.is_open now = (true, cb))
    ∧ (∀ (cb : CircuitBreaker) (now t : Nat), cb.timeout = 60 → cb.failure_threshold = 5 →
        5 ≤ cb.failure_count → cb.state = .OPEN → cb.last_failure_time = some t →
        60 < now - t →
        (cb.is_open now).1 = false
        ∧ ((cb.is_open now).2).state = .HALF_OPEN
        ∧ (((cb.is_open now).2).record_success).state = .CLOSED
        ∧ (((cb.is_open now).2).record_success).failure_count = 0
        ∧ ∀ t2 : Nat,
            (((cb.is_open now).2).record_failure t2).state = .OPEN
            ∧ ∀ now2 : Nat, now2 - t2 < 60 →
              ((((cb.is_open now).2).record_failure t2).is_open now2).1 = true) := by
  refine ⟨rfl, ?_, ?_, ?_⟩
  · intro ts hlen
    apply foldl_record_failure_opens ts (CircuitBreaker.init 5 60)
    · intro h
      rw [h] at hlen
      simp at hlen
    · simpa [CircuitBreaker.init] using hlen
  · intro cb now t ht hs hl hlt
    exact is_open_within cb now t hs hl (by omega)
  · intro cb now t ht hth hcnt hs hl hgt
    have hexp := is_open_expired cb now t hs hl (by omega)
    rw [hexp]
    refine ⟨rfl, rfl, rfl, rfl, ?_⟩
    intro t2
    set cb' : CircuitBreaker := { cb with state := .HALF_OPEN } with hcb'
    have hopen : (cb'.record_failure t2).state = .OPEN := by
      apply record_failure_opens
      simp only [hcb', hth]
      omega
    refine ⟨hopen, ?_⟩
    intro now2 h2
    have := is_open_within (cb'.record_failure t2) now2 t2 hopen
      (record_failure_last cb' t2)
      (by rw [record_failure_timeout]; simp only [hcb', ht]; omega)
    rw [this]

/-- Witness for `circuit_breaker_lifecycle` at concrete inputs: five failures
at time 0 open the breaker; at time 30 the open breaker rejects calls; at
time 100 it lets one through; a failure recorded at time 200 re-opens it so
that time 230 rejects again. -/
theorem circuit_breaker_lifecycle_witness :
    (([0, 0, 0, 0, 0] : List Nat).foldl CircuitBreaker.record_failure
        (CircuitBreaker.init 5 60)).state = .OPEN
    ∧ CircuitBreaker.is_open ⟨5, 60, 5, some 0, .OPEN⟩ 30 =
        (true, ⟨5, 60, 5, some 0, .OPEN⟩)
    ∧ (CircuitBreaker.is_open ⟨5, 60, 5, some 0, .OPEN⟩ 100).1 = false
    ∧ ((((CircuitBreaker.is_open ⟨5, 60, 5, some 0, .OPEN⟩ 100).2.record_failure
        200).is_open 230)).1 = true :=
  ⟨circuit_breaker_lifecycle.2.1 [0, 0, 0, 0, 0] (by decide),
   circuit_breaker_lifecycle.2.2.1 _ 30 0 rfl rfl rfl (by decide),
   (circuit_breaker_lifecycle.2.2.2 _ 100 0 rfl rfl (by decide) rfl rfl (by decide)).1,
   (((circuit_breaker_lifecycle.2.2.2 _ 100 0 rfl rfl (by decide) rfl rfl
      (by decide)).2.2.2.2 200).2 230 (by decide))⟩

/-- C9: in every breaker state reachable from the initial breaker by any
sequence of `record_success`, `record_failure` and `is_open` calls,
`state = OPEN` implies `failure_count ≥ failure_threshold` (= 5); and a
single `record_success` fully resets any breaker to `CLOSED` with
`failure_count = 0`. -/
theorem breaker_open_implies_threshold :
    (∀ ops : List BOp,
        (runBOps (CircuitBreaker.init 5 60) ops).state = .OPEN →
        5 ≤ (runBOps (CircuitBreaker.init 5 60) ops).failure_count)
    ∧ (∀ cb : CircuitBreaker,
        (cb.record_success).failure_count = 0 ∧ (cb.record_success).state = .CLOSED) := by
  constructor
  · intro ops hst
    have hinv : BreakerInv (runBOps (CircuitBreaker.init 5 60) ops) := by
      apply breakerInv_runBOps
      intro h
      simp [CircuitBreaker.init] at h
    have hth := runBOps_threshold (CircuitBreaker.init 5 60) ops
    have := hinv hst
    rw [hth] at this
    exact this
  · intro cb
    exact ⟨rfl, rfl⟩

/-- Witness for `breaker_open_implies_threshold`: after five failures at
time 0 the reachable breaker is `OPEN` and indeed has count ≥ 5, and
`record_success` resets a concrete open breaker. -/
theorem breaker_open_implies_threshold_witness :
    5 ≤ (runBOps (CircuitBreaker.init 5 60)
          [.failure 0, .failure 0, .failure 0, .failure 0, .failure 0]).failure_count
    ∧ ((⟨5, 60, 7, some 3, .OPEN⟩ : CircuitBreaker).record_success.failure_count = 0
        ∧ (⟨5, 60, 7, some 3, .OPEN⟩ : CircuitBreaker).record_success.state = .CLOSED) :=
  ⟨breaker_open_implies_threshold.1
      [.failure 0, .failure 0, .failure 0, .failure 0, .failure 0] (by decide),
   breaker_open_implies_threshold.2 ⟨5, 60, 7, some 3, .OPEN⟩⟩

/-! ## Resilient service client (`shopping_tools.py`, `WalmartAPIClient`)

`WalmartAPIClient.__init__` builds `CircuitBreaker(failure_threshold=5,
timeout=60)`.  Each client method is embedded as a function of an HTTP
oracle `Nat → HttpOutcome` (the outcome of its n-th issued request) that
returns, besides its result, the number of requests it issued. -/

/-- Outcome of one HTTP request attempt: a response with a status code, an
`httpx.TimeoutException`, or an `httpx.ConnectError`. -/
inductive HttpOutcome where
  | resp (status : Nat)
  | timeoutErr
  | connectErr
deriving DecidableEq, Repr

/-- Result of `get_user_profile`: the parsed JSON body on HTTP 200, or the
empty dict `{}` on every other path. -/
inductive ProfileRes where
  | data
  | emptyDict
deriving DecidableEq, Repr

/-- Result of `get_shopping_list`: the parsed list on HTTP 200, or `[]`. -/
inductive ListRes where
  | items
  | emptyList
deriving DecidableEq, Repr

/-- The retry loop of `get_user_profile` (lines 99–134), one recursive call
per remaining attempt (`remaining = max_retries - attempt`; the Python
guard `attempt < max_retries - 1` is `1 ≤ r` here).  Each attempt checks the
breaker (line 104), then `_make_request` (lines 331–342) checks it again,
issues the request, and records success on any response / failure on a
network exception.  The `remaining = 0` case is unreachable when started at
3 (every final attempt returns). -/
def profileGo (oracle : Nat → HttpOutcome) (now : Nat) :
    Nat → CircuitBreaker → Nat → ProfileRes × CircuitBreaker × Nat
  | 0, cb, n => (.emptyDict, cb, n)
  | r + 1, cb, n =>
    let c1 := cb.is_open now
    if c1.1 then (.emptyDict, c1.2, n)
    else
      let c2 := c1.2.is_open now
      if c2.1 then (.emptyDict, c2.2, n)
      else
        match oracle n with
        | .resp status =>
          let cb3 := c2.2.record_success
          if status == 200 then (.data, cb3, n + 1)
          else if status == 404 then (.emptyDict, cb3, n + 1)
          else if 500 ≤ status then
            if 1 ≤ r then profileGo oracle now r cb3 (n + 1)
            else (.emptyDict, cb3, n + 1)
          else (.emptyDict, cb3, n + 1)
        | .timeoutErr =>
          let cb3 := c2.2.record_failure now
          if 1 ≤ r then profileGo oracle now r cb3 (n + 1)
          else (.emptyDict, cb3, n + 1)
        | .connectErr =>
          let cb3 := c2.2.record_failure now
          if 1 ≤ r then profileGo oracle now r cb3 (n + 1)
          else (.emptyDict, cb3, n + 1)

/-- `WalmartAPIClient.get_user_profile` (lines 99–134), `max_retries = 3`. -/
def get_user_profile (cb : CircuitBreaker) (now : Nat) (oracle : Nat → HttpOutcome) :
    ProfileRes × CircuitBreaker × Nat :=
  profileGo oracle now 3 cb 0

/-- The retry loop of `get_shopping_list` (lines 136–164).  Note: this
method never consults or updates the circuit breaker — it calls
`self.client.get` directly. -/
def listGo (oracle : Nat → HttpOutcome) : Nat → Nat → ListRes × Nat
  | 0, n => (.emptyList, n)
  | r + 1, n =>
    match oracle n with
    | .resp status =>
      if status == 200 then (.items, n + 1)
      else if status == 404 then (.emptyList, n + 1)
      else if 500 ≤ status then
        if 1 ≤ r then listGo oracle r (n + 1) else (.emptyList, n + 1)
      else (.emptyList, n + 1)
    | .timeoutErr =>
      if 1 ≤ r then listGo oracle r (n + 1) else (.emptyList, n + 1)
    | .connectErr =>
      if 1 ≤ r then listGo oracle r (n + 1) else (.emptyList, n + 1)

/-- `WalmartAPIClient.get_shopping_list` (lines 136–164), `max_retries = 3`;
no circuit-breaker interaction in the source. -/
def get_shopping_list (oracle : Nat → HttpOutcome) : ListRes × Nat :=
  listGo oracle 3 0

/-- The retry loop of `add_to_shopping_list` (lines 166–212); returns the
`success` flag.  No circuit-breaker interaction in the source. -/
def addGo (oracle : Nat → HttpOutcome) : Nat → Nat → Bool × Nat
  | 0, n => (false, n)
  | r + 1, n =>
    match oracle n with
    | .resp status =>
      if status == 200 then (true, n + 1)
      else if status == 404 then (false, n + 1)
      else if 500 ≤ status then
        if 1 ≤ r then addGo oracle r (n + 1) else (false, n + 1)
      else (false, n + 1)
    | .timeoutErr =>
      if 1 ≤ r then addGo oracle r (n + 1) else (false, n + 1)
    | .connectErr =>
      if 1 ≤ r then addGo oracle r (n + 1) else (false, n + 1)

/-- `WalmartAPIClient.add_to_shopping_list` (lines 166–212),
`max_retries = 3`; no circuit-breaker interaction in the source. -/
def add_to_shopping_list (oracle : Nat → HttpOutcome) : Bool × Nat :=
  addGo oracle 3 0

/-- `WalmartAPIClient.remove_from_shopping_list` (lines 214–224): a single
attempt, success iff HTTP 200, any exception mapped to a failure result.
No circuit-breaker interaction in the source. -/
def remove_from_shopping_list (oracle : Nat → HttpOutcome) : Bool × Nat :=
  match oracle 0 with
  | .resp status => (status == 200, 1)
  | .timeoutErr => (false, 1)
  | .connectErr => (false, 1)

theorem profileGo_open (oracle : Nat → HttpOutcome) (now r : Nat)
    (cb : CircuitBreaker) (n : Nat) (h : cb.is_open now = (true, cb)) :
    profileGo oracle now (r + 1) cb n = (.emptyDict, cb, n) := by
  unfold profileGo
  rw [h]
  rfl

theorem listGo_count_le (oracle : Nat → HttpOutcome) :
    ∀ (r n : Nat), n ≤ (listGo oracle r n).2 := by
  intro r
  induction r with
  | zero => intro n; exact Nat.le_refl n
  | succ r ih =>
    intro n
    unfold listGo
    have hstep : n ≤ n + 1 := Nat.le_succ n
    cases oracle n with
    | resp status =>
      dsimp only
      split
      · exact hstep
      · split
        · exact hstep
        · split
          · split
            · exact hstep.trans (ih (n + 1))
            · exact hstep
          · exact hstep
    | timeoutErr =>
      dsimp only
      split
      · exact hstep.trans (ih (n + 1))
      · exact hstep
    | connectErr =>
      dsimp only
      split
      · exact hstep.trans (ih (n + 1))
      · exact hstep

theorem listGo_succ_pos (oracle : Nat → HttpOutcome) (r n : Nat) :
    n + 1 ≤ (listGo oracle (r + 1) n).2 := by
  unfold listGo
  have hrec := listGo_count_le oracle r (n + 1)
  cases oracle n with
  | resp status =>
    dsimp only
    split
    · exact Nat.le_refl _
    · split
      · exact Nat.le_refl _
      · split
        · split
          · exact hrec
          · exact Nat.le_refl _
        · exact Nat.le_refl _
  | timeoutErr =>
    dsimp only
    split
    · exact hrec
    · exact Nat.le_refl _
  | connectErr =>
    dsimp only
    split
    · exact hrec
    · exact Nat.le_refl _

theorem addGo_count_le (oracle : Nat → HttpOutcome) :
    ∀ (r n : Nat), n ≤ (addGo oracle r n).2 := by
  intro r
  induction r with
  | zero => intro n; exact Nat.le_refl n
  | succ r ih =>
    intro n
    unfold addGo
    have hstep : n ≤ n + 1 := Nat.le_succ n
    cases oracle n with
    | resp status =>
      dsimp only
      split
      · exact hstep
      · split
        · exact hstep
        · split
          · split
            · exact hstep.trans (ih (n + 1))
            · exact hstep
          · exact hstep
    | timeoutErr =>
      dsimp only
      split
      · exact hstep.trans (ih (n + 1))
      · exact hstep
    | connectErr =>
      dsimp only
      split
      · exact hstep.trans (ih (n + 1))
      · exact hstep

theorem addGo_succ_pos (oracle : Nat → HttpOutcome) (r n : Nat) :
    n + 1 ≤ (addGo oracle (r + 1) n).2 := by
  unfold addGo
  have hrec := addGo_count_le oracle r (n + 1)
  cases oracle n with
  | resp status =>
    dsimp only
    split
    · exact Nat.le_refl _
    · split
      · exact Nat.le_refl _
      · split
        · split
          · exact hrec
          · exact Nat.le_refl _
        · exact Nat.le_refl _
  | timeoutErr =>
    dsimp only
    split
    · exact hrec
    · exact Nat.le_refl _
  | connectErr =>
    dsimp only
    split
    · exact hrec
    · exact Nat.le_refl _

/-- C2 counterexample: with the circuit breaker `OPEN` well inside its 60 s
timeout (five failures recorded at time 0, checked at time 30),
`get_shopping_list` still issues a network request — the list-read path
never consults the breaker, contradicting the claim that every backend call
checks the breaker state before any network I/O. -/
theorem get_shopping_list_ignores_open_breaker :
    ((runBOps (CircuitBreaker.init 5 60)
        [.failure 0, .failure 0, .failure 0, .failure 0, .failure 0]).is_open 30).1 = true
    ∧ (get_shopping_list (fun _ => HttpOutcome.resp 200)).2 = 1 := by
  constructor
  · decide
  · rfl

/-- C2 amended: only the profile read is protected by the circuit breaker —
when the breaker is `OPEN` within its timeout, `get_user_profile` fails fast
with the empty-dict default, leaves the breaker untouched and issues zero
network requests; the list read, item add, and item remove (and hence the
list clear, which is composed of a list read and item removes) always issue
at least one network request regardless of breaker state, since they never
consult the breaker. -/
theorem breaker_checked_only_for_profile :
    (∀ (cb : CircuitBreaker) (now t : Nat) (oracle : Nat → HttpOutcome),
        cb.state = .OPEN → cb.last_failure_time = some t → now - t ≤ cb.timeout →
        get_user_profile cb now oracle = (.emptyDict, cb, 0))
    ∧ (∀ oracle : Nat → HttpOutcome, 1 ≤ (get_shopping_list oracle).2)
    ∧ (∀ oracle : Nat → HttpOutcome, 1 ≤ (add_to_shopping_list oracle).2)
    ∧ (∀ oracle : Nat → HttpOutcome, (remove_from_shopping_list oracle).2 = 1) := by
  refine ⟨?_, ?_, ?_, ?_⟩
  · intro cb now t oracle hs hl hle
    have h := is_open_within cb now t hs hl hle
    show profileGo oracle now (2 + 1) cb 0 = (.emptyDict, cb, 0)
    exact profileGo_open oracle now 2 cb 0 h
  · intro oracle
    show 1 ≤ (listGo oracle (2 + 1) 0).2
    exact listGo_succ_pos oracle 2 0
  · intro oracle
    show 1 ≤ (addGo oracle (2 + 1) 0).2
    exact addGo_succ_pos oracle 2 0
  · intro oracle
    unfold remove_from_shopping_list
    cases oracle 0 <;> rfl

/-- Witness for `breaker_checked_only_for_profile` at concrete inputs: an
open breaker at time 30 makes the profile read fail fast with zero requests,
while the list read still issues a request. -/
theorem breaker_checked_only_for_profile_witness :
    get_user_profile ⟨5, 60, 5, some 0, .OPEN⟩ 30 (fun _ => HttpOutcome.resp 200) =
      (.emptyDict, ⟨5, 60, 5, some 0, .OPEN⟩, 0)
    ∧ 1 ≤ (get_shopping_list (fun _ => HttpOutcome.resp 200)).2 :=
  ⟨breaker_checked_only_for_profile.1 ⟨5, 60, 5, some 0, .OPEN⟩ 30 0
      (fun _ => HttpOutcome.resp 200) rfl rfl (by decide),
   breaker_checked_only_for_profile.2.1 (fun _ => HttpOutcome.resp 200)⟩

/-! ## Products and the conversation context store
(`shopping_assistant.py` `ConversationState`, lines 86–126) -/

/-- A product dict as used by the discovery pipeline and filters: only the
fields the embedded code inspects are kept.  `id` and `price` are `Option`
because the Python uses `dict.get`, which yields `None` for absent keys. -/
structure Product where
  id : Option String
  name : String
  category : String
  price : Option ℚ
deriving DecidableEq, Repr

/-- `ConversationState` (lines 86–126).  Only the fields read by the
embedded operations are modelled (`last_recommendations` and
`last_action_context` are written but never branched on). -/
structure ConversationState where
  last_products : List Product
  last_search_intent : String
  context_score : ℚ
deriving DecidableEq, Repr

/-- `ConversationState.__init__` (lines 89–94): empty context, score 0.0. -/
def ConversationState.init : ConversationState :=
  { last_products := [], last_search_intent := "", context_score := 0 }

/-- `update_products` (lines 96–100): keep the last ≤ 10 products, reset the
score to 1.0. -/
def ConversationState.update_products (cs : ConversationState)
    (products : List Product) (intent : String) : ConversationState :=
  { cs with
    last_products := products.drop (products.length - 10)
    last_search_intent := intent
    context_score := 1 }

/-- `decay_context` (lines 120–122): multiply the score by 0.8. -/
def ConversationState.decay_context (cs : ConversationState) : ConversationState :=
  { cs with context_score := cs.context_score * (4 / 5) }

/-- `has_valid_context` (lines 124–126): `score > 0.3 and products ≠ []`. -/
def ConversationState.has_valid_context (cs : ConversationState) : Bool :=
  decide ((3 : ℚ) / 10 < cs.context_score) && decide (0 < cs.last_products.length)

/-- `get_contextual_products` (lines 114–118). -/
def ConversationState.get_contextual_products (cs : ConversationState) : List Product :=
  if (3 : ℚ) / 10 < cs.context_score then cs.last_products else []

/-- C3 counterexample: on the freshly initialised context store (score 0.0 —
a reachable state, it is the constructor's output), `decay_context` does not
strictly decrease the relevance score: `0 * 0.8 = 0`.  So "one call to
`decay()` strictly decreases the relevance score" fails for this state. -/
theorem decay_context_not_strict_at_zero :
    (ConversationState.init.decay_context).context_score
      = ConversationState.init.context_score
    ∧ ¬ ((ConversationState.init.decay_context).context_score
          < ConversationState.init.context_score) := by
  constructor
  · show (0 : ℚ) * (4 / 5) = 0
    norm_num
  · show ¬ ((0 : ℚ) * (4 / 5) < 0)
    norm_num

/-- C3 amended: `decay_context` multiplies the relevance score by exactly
0.8, which strictly decreases it whenever the score is positive; and
whenever the score is ≤ 0.3, `has_valid_context` is `false` no matter how
many products are stored. -/
theorem decay_scales_by_point_eight (cs : ConversationState) :
    (cs.decay_context).context_score = cs.context_score * (4 / 5)
    ∧ (0 < cs.context_score →
        (cs.decay_context).context_score < cs.context_score)
    ∧ (cs.context_score ≤ 3 / 10 → cs.has_valid_context = false) := by
  refine ⟨rfl, ?_, ?_⟩
  · intro hpos
    exact mul_lt_of_lt_one_right hpos (by norm_num)
  · intro hle
    have : ¬ ((3 : ℚ) / 10 < cs.context_score) := not_lt.mpr hle
    simp [ConversationState.has_valid_context, this]

/-- Witness for `decay_scales_by_point_eight`: a score of 1/2 strictly
decays, and a context with score 1/4 and a nonempty product list is
invalid. -/
theorem decay_scales_by_point_eight_witness :
    ((⟨[], "", 1 / 2⟩ : ConversationState).decay_context).context_score
      < (⟨[], "", 1 / 2⟩ : ConversationState).context_score
    ∧ (⟨[⟨some "p1", "Milk", "dairy", some 3⟩], "milk", 1 / 4⟩
        : ConversationState).has_valid_context = false :=
  ⟨(decay_scales_by_point_eight ⟨[], "", 1 / 2⟩).2.1 (by norm_num),
   (decay_scales_by_point_eight
      ⟨[⟨some "p1", "Milk", "dairy", some 3⟩], "milk", 1 / 4⟩).2.2 (by norm_num)⟩

/-! ## Budget filter (`shopping_tools.py`, `filter_products_by_budget`,
lines 788–809) -/

/-- The sort key `lambda x: x.get("price", 0)` (line 808). -/
def priceKey (p : Product) : ℚ := p.price.getD 0

/-- The filter condition of lines 802–805: keep a product iff its price is
present (`is not None`) and ≤ the budget. -/
def budgetOk (max_budget : ℚ) (p : Product) : Bool :=
  match p.price with
  | some v => decide (v ≤ max_budget)
  | none => false

/-- Insert into a price-sorted list, keeping it sorted (the embedding of
`list.sort(key=...)`, line 808). -/
def insertByPrice (p : Product) : List Product → List Product
  | [] => [p]
  | q :: qs => if priceKey p ≤ priceKey q then p :: q :: qs else q :: insertByPrice p qs

/-- Sort a product list ascending by `priceKey` (insertion sort; any stable
comparison sort computes the same sorted order as Python's `list.sort`). -/
def sortByPrice : List Product → List Product
  | [] => []
  | p :: ps => insertByPrice p (sortByPrice ps)

/-- `filter_products_by_budget` (lines 788–809): keep products with a
present price ≤ `max_budget`, then sort ascending by price. -/
def filter_products_by_budget (products : List Product) (max_budget : ℚ) : List Product :=
  sortByPrice (products.filter (budgetOk max_budget))

theorem insertByPrice_perm (p : Product) (l : List Product) :
    (insertByPrice p l).Perm (p :: l) := by
  induction l with
  | nil => exact List.Perm.refl _
  | cons q qs ih =>
    unfold insertByPrice
    split
    · exact List.Perm.refl _
    · exact (List.Perm.cons q ih).trans (List.Perm.swap p q qs)

theorem sortByPrice_perm (l : List Product) : (sortByPrice l).Perm l := by
  induction l with
  | nil => exact List.Perm.refl _
  | cons p ps ih =>
    exact (insertByPrice_perm p (sortByPrice ps)).trans (List.Perm.cons p ih)

theorem insertByPrice_sorted (p : Product) (l : List Product)
    (h : l.Sorted (fun a b => priceKey a ≤ priceKey b)) :
    (insertByPrice p l).Sorted (fun a b => priceKey a ≤ priceKey b) := by
  induction l with
  | nil => simp [insertByPrice]
  | cons q qs ih =>
    rw [List.sorted_cons] at h
    unfold insertByPrice
    split
    · rename_i hpq
      rw [List.sorted_cons]
      constructor
      · intro b hb
        rcases List.mem_cons.mp hb with hb | hb
        · exact hb ▸ hpq
        · exact hpq.trans (h.1 b hb)
      · rw [List.sorted_cons]
        exact h
    · rename_i hpq
      rw [List.sorted_cons]
      refine ⟨?_, ih h.2⟩
      intro b hb
      have hb' := (insertByPrice_perm p qs).mem_iff.mp hb
      rcases List.mem_cons.mp hb' with hb' | hb'
      · subst hb'
        exact le_of_not_le hpq
      · exact h.1 b hb'

theorem sortByPrice_sorted (l : List Product) :
    (sortByPrice l).Sorted (fun a b => priceKey a ≤ priceKey b) := by
  induction l with
  | nil => simp [sortByPrice]
  | cons p ps ih => exact insertByPrice_sorted p (sortByPrice ps) ih

/-- C4: every product returned by the budget filter has a present price
that is at most the limit, and the returned list is sorted ascending by
price. -/
theorem filter_products_by_budget_spec (products : List Product) (max_budget : ℚ) :
    (∀ p ∈ filter_products_by_budget products max_budget,
        ∃ v, p.price = some v ∧ v ≤ max_budget)
    ∧ (filter_products_by_budget products max_budget).Sorted
        (fun a b => priceKey a ≤ priceKey b) := by
  constructor
  · intro p hp
    have hp' : p ∈ products.filter (budgetOk max_budget) :=
      (sortByPrice_perm _).mem_iff.mp hp
    have hok : budgetOk max_budget p = true := (List.mem_filter.mp hp').2
    unfold budgetOk at hok
    rcases hpr : p.price with _ | v
    · rw [hpr] at hok
      simp at hok
    · rw [hpr] at hok
      exact ⟨v, rfl, of_decide_eq_true hok⟩
  · exact sortByPrice_sorted _

/-- Witness for `filter_products_by_budget_spec`: on a concrete list with an
over-budget, an affordable, and an unpriced product. -/
theorem filter_products_by_budget_spec_witness :
    (∃ v, (⟨some "a", "Apple", "fruit", some 3⟩ : Product).price = some v ∧ v ≤ (5 : ℚ))
    ∧ (filter_products_by_budget
        [⟨some "b", "Beef", "meat", some 10⟩, ⟨some "a", "Apple", "fruit", some 3⟩,
         ⟨some "n", "Napkin", "misc", none⟩] 5).Sorted
        (fun a b => priceKey a ≤ priceKey b) :=
  ⟨(filter_products_by_budget_spec
      [⟨some "b", "Beef", "meat", some 10⟩, ⟨some "a", "Apple", "fruit", some 3⟩,
       ⟨some "n", "Napkin", "misc", none⟩] 5).1
      ⟨some "a", "Apple", "fruit", some 3⟩ (by decide),
   (filter_products_by_budget_spec
      [⟨some "b", "Beef", "meat", some 10⟩, ⟨some "a", "Apple", "fruit", some 3⟩,
       ⟨some "n", "Napkin", "misc", none⟩] 5).2⟩

/-- C10: the budget filter's output is exactly (as a permutation — the
output is re-sorted) the input products whose price is present and ≤ the
limit; in particular every product whose price field is missing/None is
silently excluded. -/
theorem filter_products_by_budget_exact (products : List Product) (max_budget : ℚ) :
    (filter_products_by_budget products max_budget).Perm
      (products.filter (budgetOk max_budget))
    ∧ (∀ p ∈ products, p.price = none →
        p ∉ filter_products_by_budget products max_budget) := by
  constructor
  · exact sortByPrice_perm _
  · intro p _ hnone hmem
    have hp' : p ∈ products.filter (budgetOk max_budget) :=
      (sortByPrice_perm _).mem_iff.mp hmem
    have hok : budgetOk max_budget p = true := (List.mem_filter.mp hp').2
    unfold budgetOk at hok
    rw [hnone] at hok
    simp at hok

/-- Witness for `filter_products_by_budget_exact`: the unpriced product is
excluded even though it violates no budget constraint. -/
theorem filter_products_by_budget_exact_witness :
    (filter_products_by_budget
        [⟨some "a", "Apple", "fruit", some 3⟩, ⟨some "n", "Napkin", "misc", none⟩] 5).Perm
      ([⟨some "a", "Apple", "fruit", some 3⟩,
        ⟨some "n", "Napkin", "misc", none⟩].filter (budgetOk 5))
    ∧ (⟨some "n", "Napkin", "misc", none⟩ : Product) ∉
        filter_products_by_budget
          [⟨some "a", "Apple", "fruit", some 3⟩, ⟨some "n", "Napkin", "misc", none⟩] 5 :=
  ⟨(filter_products_by_budget_exact
      [⟨some "a", "Apple", "fruit", some 3⟩, ⟨some "n", "Napkin", "misc", none⟩] 5).1,
   (filter_products_by_budget_exact
      [⟨some "a", "Apple", "fruit", some 3⟩, ⟨some "n", "Napkin", "misc", none⟩] 5).2
      ⟨some "n", "Napkin", "misc", none⟩ (by decide) rfl⟩

/-! ## De-duplication by product id
(`shopping_assistant.py` lines 543–550 and 756–763: identical loops) -/

/-- The Python guard `if prod_id and prod_id not in seen_ids` treats a
missing id and an empty-string id (both falsy) alike: such products are
skipped.  `idKey` returns the key a product is de-duplicated under, or
`none` if the product is dropped. -/
def idKey (p : Product) : Option String :=
  match p.id with
  | some s => if s = "" then none else some s
  | none => none

/-- The de-duplication loop: first-seen product wins, order preserved,
`seen` is the set of ids already emitted. -/
def dedupGo (seen : List String) : List Product → List Product
  | [] => []
  | p :: ps =>
    match idKey p with
    | none => dedupGo seen ps
    | some k => if k ∈ seen then dedupGo seen ps else p :: dedupGo (k :: seen) ps

/-- De-duplication of a product list by id, as in `discover_products` and
`execute_actions`. -/
def dedupById (products : List Product) : List Product :=
  dedupGo [] products

theorem dedupGo_idem (l : List Product) :
    ∀ seen : List String, dedupGo seen (dedupGo seen l) = dedupGo seen l := by
  induction l with
  | nil => intro seen; rfl
  | cons p ps ih =>
    intro seen
    cases hk : idKey p with
    | none => simp [dedupGo, hk, ih seen]
    | some k =>
      by_cases hmem : k ∈ seen
      · simp [dedupGo, hk, hmem, ih seen]
      · simp [dedupGo, hk, hmem, ih (k :: seen)]

/-- C6: de-duplication by product id is idempotent — running it twice
yields the same list as running it once. -/
theorem dedupById_idempotent (products : List Product) :
    dedupById (dedupById products) = dedupById products :=
  dedupGo_idem products []

/-! ## Intent routing (`shopping_assistant.py`, `route_by_intent`,
lines 1624–1654) -/

/-- `leadsWith n h` is true iff character list `n` is an initial segment of
`h`. -/
def leadsWith : List Char → List Char → Bool
  | [], _ => true
  | _ :: _, [] => false
  | a :: as, b :: bs => a == b && leadsWith as bs

/-- `occursIn n h` is true iff `n` occurs contiguously somewhere in `h`. -/
def occursIn (n : List Char) : List Char → Bool
  | [] => leadsWith n []
  | c :: rest => leadsWith n (c :: rest) || occursIn n rest

/-- Python's substring test `needle in haystack`. -/
def strContains (haystack needle : String) : Bool :=
  occursIn needle.data haystack.data

/-- Python's `str.lower()` (ASCII is all the route checks compare). -/
def lowerStr (s : String) : String :=
  ⟨s.data.map Char.toLower⟩

/-- The state fields `route_by_intent` reads. -/
structure RouteState where
  current_intent : String
  current_message : String
  conversation_context : Option ConversationState
deriving DecidableEq, Repr

/-- Python truthiness-plus-validity test `context and context.has_valid_context()`. -/
def ctxValid : Option ConversationState → Bool
  | some c => c.has_valid_context
  | none => false

/-- The contextual-reference words of line 1639. -/
def contextual_phrases : List String :=
  ["those", "them", "these", "it", "all", "other", "rest", "more", "additional"]

/-- The fresh-search phrases of line 1644. -/
def search_phrases : List String := ["find", "search for", "look for"]

/-- The referential words excluded on line 1644. -/
def reference_words : List String := ["those", "them", "these"]

/-- The viewing/management words of line 1648. -/
def management_words : List String :=
  ["show", "view", "see", "list", "remove", "delete", "clear"]

/-- `route_by_intent` (lines 1624–1654), a pure function of the state
(`message` is the lower-cased current message, recomputed here instead of
let-bound, which does not change the value). -/
def route_by_intent (s : RouteState) : String :=
  if s.current_intent = "product_discovery" ∨ s.current_intent = "comparison"
      ∨ s.current_intent = "meal_planning" then
    "discover_products"
  else if s.current_intent = "shopping_list_management" then
    if ctxValid s.conversation_context
        && contextual_phrases.any (fun ph => strContains (lowerStr s.current_message) ph) then
      "execute_actions"
    else if search_phrases.any (fun ph => strContains (lowerStr s.current_message) ph)
        && !(reference_words.any (fun w => strContains (lowerStr s.current_message) w)) then
      "discover_products"
    else if management_words.any (fun w => strContains (lowerStr s.current_message) w) then
      "execute_actions"
    else if ctxValid s.conversation_context then "execute_actions"
    else "discover_products"
  else "execute_actions"

/-- Line 1639–1640: the lower-cased message mentions a contextual phrase. -/
def mentionsContextualPhrase (m : String) : Bool :=
  contextual_phrases.any (fun ph => strContains m ph)

/-- Line 1644: the message looks like a fresh search request — it contains a
search phrase and no referential word. -/
def looksLikeFreshSearch (m : String) : Bool :=
  search_phrases.any (fun ph => strContains m ph)
    && !(reference_words.any (fun w => strContains m w))

/-- Line 1648: the message mentions a viewing/management word. -/
def mentionsManagementWord (m : String) : Bool :=
  management_words.any (fun w => strContains m w)

/-- C5 counterexample: intent `shopping_list_management`, a perfectly valid
conversation context (score 1.0, one product), and the message
`"find milk"` — the code routes to `DiscoverProducts`, although the claim
says discovery is taken *only if* there is no valid context. -/
theorem route_valid_context_still_discovers :
    route_by_intent
      ⟨"shopping_list_management", "find milk",
        some ⟨[⟨some "p1", "Milk", "dairy", some 3⟩], "milk", 1⟩⟩ = "discover_products"
    ∧ ctxValid (some ⟨[⟨some "p1", "Milk", "dairy", some 3⟩], "milk", 1⟩) = true := by
  have hvalid : ctxValid (some ⟨[⟨some "p1", "Milk", "dairy", some 3⟩], "milk", 1⟩) = true := by
    simp [ctxValid, ConversationState.has_valid_context]
    norm_num
  have h1 : (contextual_phrases.any fun ph => strContains (lowerStr "find milk") ph) = false := by
    decide
  have h2 : (search_phrases.any fun ph => strContains (lowerStr "find milk") ph) = true := by
    decide
  have h3 : (reference_words.any fun w => strContains (lowerStr "find milk") w) = false := by
    decide
  refine ⟨?_, hvalid⟩
  simp [route_by_intent, hvalid, h1, h2, h3]

/-- C5 amended: `route_by_intent` is a pure function of the turn state that
maps `product_discovery`, `comparison` and `meal_planning` to
`DiscoverProducts` and every intent outside the four routed ones to
`ExecuteActions`; for `shopping_list_management` it routes to
`DiscoverProducts` exactly when the (lower-cased) utterance is not a
contextual reference backed by a valid context, and either looks like a
fresh search request (search phrase, no referential word) — *regardless of
context validity* — or mentions no management word while no valid context
exists. -/
theorem route_by_intent_characterization (s : RouteState) :
    (route_by_intent s = "discover_products" ∨ route_by_intent s = "execute_actions")
    ∧ ((s.current_intent = "product_discovery" ∨ s.current_intent = "comparison"
        ∨ s.current_intent = "meal_planning") → route_by_intent s = "discover_products")
    ∧ (s.current_intent ≠ "product_discovery" → s.current_intent ≠ "comparison" →
        s.current_intent ≠ "meal_planning" → s.current_intent ≠ "shopping_list_management" →
        route_by_intent s = "execute_actions")
    ∧ (s.current_intent = "shopping_list_management" →
        (route_by_intent s = "discover_products" ↔
          (¬ (ctxValid s.conversation_context = true
              ∧ mentionsContextualPhrase (lowerStr s.current_message) = true)
            ∧ (looksLikeFreshSearch (lowerStr s.current_message) = true
               ∨ (mentionsManagementWord (lowerStr s.current_message) = false
                  ∧ ctxValid s.conversation_context = false))))) := by
  refine ⟨?_, ?_, ?_, ?_⟩
  · unfold route_by_intent
    split
    · exact Or.inl rfl
    · split
      · split
        · exact Or.inr rfl
        · split
          · exact Or.inl rfl
          · split
            · exact Or.inr rfl
            · split
              · exact Or.inr rfl
              · exact Or.inl rfl
      · exact Or.inr rfl
  · intro h
    unfold route_by_intent
    rw [if_pos h]
  · intro h1 h2 h3 h4
    unfold route_by_intent
    rw [if_neg (by simp [h1, h2, h3]), if_neg h4]
  · intro hs
    unfold route_by_intent
    rw [if_neg (by rw [hs]; decide), if_pos hs]
    rw [← mentionsContextualPhrase, ← looksLikeFreshSearch, ← mentionsManagementWord]
    cases hv : ctxValid s.conversation_context
      <;> cases hc : mentionsContextualPhrase (lowerStr s.current_message)
      <;> cases hf : looksLikeFreshSearch (lowerStr s.current_message)
      <;> cases hm : mentionsManagementWord (lowerStr s.current_message)
      <;> simp [hv, hc, hf, hm]

/-- Witness for `route_by_intent_characterization` at concrete states: a
discovery intent routes to discovery, an unrouted intent to actions, and a
list-management "find milk" turn with no context routes to discovery. -/
theorem route_by_intent_characterization_witness :
    route_by_intent ⟨"product_discovery", "hello", none⟩ = "discover_products"
    ∧ route_by_intent ⟨"general_chat", "hi", none⟩ = "execute_actions"
    ∧ route_by_intent ⟨"shopping_list_management", "find milk", none⟩ = "discover_products" :=
  ⟨(route_by_intent_characterization ⟨"product_discovery", "hello", none⟩).2.1 (Or.inl rfl),
   (route_by_intent_characterization ⟨"general_chat", "hi", none⟩).2.2.1
      (by decide) (by decide) (by decide) (by decide),
   ((route_by_intent_characterization
      ⟨"shopping_list_management", "find milk", none⟩).2.2.2 rfl).mpr (by decide)⟩

/-! ## Top-level chat turn (`shopping_assistant.py`, `chat`, lines 1693–1798) -/

theorem leadsWith_append (l t : List Char) : leadsWith l (l ++ t) = true := by
  induction l with
  | nil => rfl
  | cons a as ih => simp [leadsWith, ih]

theorem leadsWith_mono (n : List Char) :
    ∀ h t : List Char, leadsWith n h = true → leadsWith n (h ++ t) = true := by
  induction n with
  | nil => intro h t _; rfl
  | cons a as ih =>
    intro h t hlead
    cases h with
    | nil => simp [leadsWith] at hlead
    | cons b bs =>
      simp only [leadsWith, Bool.and_eq_true] at hlead
      simp only [List.cons_append, leadsWith, Bool.and_eq_true]
      exact ⟨hlead.1, ih bs t hlead.2⟩

theorem occursIn_nil_needle (h : List Char) : occursIn [] h = true := by
  cases h <;> simp [occursIn, leadsWith]

theorem occursIn_mono (n : List Char) :
    ∀ h t : List Char, occursIn n h = true → occursIn n (h ++ t) = true := by
  intro h
  induction h with
  | nil =>
    intro t hocc
    cases n with
    | nil => exact occursIn_nil_needle t
    | cons a as => simp [occursIn, leadsWith] at hocc
  | cons c rest ih =>
    intro t hocc
    simp only [occursIn, Bool.or_eq_true] at hocc
    simp only [List.cons_append, occursIn, Bool.or_eq_true]
    rcases hocc with hocc | hocc
    · exact Or.inl (by simpa using leadsWith_mono n (c :: rest) t hocc)
    · exact Or.inr (ih t hocc)

theorem occursIn_append_self (n : List Char) :
    ∀ m : List Char, occursIn n (m ++ n) = true := by
  intro m
  induction m with
  | nil =>
    cases n with
    | nil => rfl
    | cons a as =>
      simp only [List.nil_append, occursIn, Bool.or_eq_true]
      exact Or.inl (by simpa using leadsWith_append (a :: as) [])
  | cons c m' ih =>
    simp only [List.cons_append, occursIn, Bool.or_eq_true]
    exact Or.inr ih

/-- A string always contains its own suffix. -/
theorem strContains_append_right (a b : String) : strContains (a ++ b) b = true := by
  show occursIn b.data (a ++ b).data = true
  rw [String.data_append]
  exact occursIn_append_self b.data a.data

/-- Containment is preserved when the haystack is extended on the right. -/
theorem strContains_append_left (a b n : String) (h : strContains a n = true) :
    strContains (a ++ b) n = true := by
  show occursIn n.data (a ++ b).data = true
  rw [String.data_append]
  exact occursIn_mono n.data a.data b.data h

/-- One entry of the `chat_history` list of dicts. -/
structure ChatMsg where
  role : String
  content : String
deriving DecidableEq, Repr

/-- The dict returned by `WalmartShoppingAssistant.chat` (lines 1763–1776 on
success, 1788–1798 on error); the `agent_thoughts` key is omitted (never
branched on by the embedded claims). -/
structure ChatResult where
  response : String
  products : List Product
  recommendations : List Product
  actions_taken : List String
  intent : String
  chat_history : List ChatMsg
  conversation_context : ConversationState
  success : Bool
deriving DecidableEq, Repr

/-- The final workflow state fields that `chat` reads on the success path. -/
structure FinalTurn where
  final_response : String
  retrieved_products : List Product
  recommendations : List Product
  actions_taken : List String
  current_intent : String
  chat_history : List ChatMsg
  conversation_context : ConversationState
deriving DecidableEq, Repr

/-- Abstraction of `await self.agent_graph.ainvoke(initial_state)`: either
the workflow completes with a final state, or an exception escapes it.
Because every stage mutates in place the single `ConversationState` object
it shares with `chat` (e.g. the once-per-turn `decay_context()` at line
298), the `raises` outcome carries the contents of that shared object at
the moment the exception escaped. -/
inductive WorkflowOutcome where
  | completes (final : FinalTurn)
  | raises (errMsg : String) (ctxAtFailure : ConversationState)

/-- `WalmartShoppingAssistant.chat` (lines 1693–1798) with the workflow run
abstracted as a `WorkflowOutcome`.  On success it returns the final state
plus the two new history entries (lines 1763–1776); on an escaped exception
it returns the apology response, `success=False`, the caller's history
(`chat_history or []`), and the shared context object as it stands at
failure time (lines 1788–1798). -/
def chat (user_message : String) (chat_history : Option (List ChatMsg))
    (outcome : WorkflowOutcome) : ChatResult :=
  match outcome with
  | .completes final =>
    { response := final.final_response
      products := final.retrieved_products
      recommendations := final.recommendations
      actions_taken := final.actions_taken
      intent := final.current_intent
      chat_history := final.chat_history ++
        [⟨"user", user_message⟩, ⟨"assistant", final.final_response⟩]
      conversation_context := final.conversation_context
      success := true }
  | .raises e ctxAtFailure =>
    { response := "I apologize, but I encountered an error: " ++ e
      products := []
      recommendations := []
      actions_taken := ["Error occurred during processing"]
      intent := "error"
      chat_history := chat_history.getD []
      conversation_context := ctxAtFailure
      success := false }

/-- A turn in which the intent-analysis stage has run — so its once-per-turn
`decay_context()` call (line 298) has already mutated the conversation
context shared with `chat` — and an exception then escapes the workflow
(for example from the LangGraph runtime between stages).  `chat` creates a
fresh context when given `none` (lines 1720–1724) before the workflow
starts. -/
def chatTurnFailingAfterIntentAnalysis (user_message : String)
    (chat_history : Option (List ChatMsg))
    (conversation_context : Option ConversationState) (errMsg : String) : ChatResult :=
  chat user_message chat_history
    (.raises errMsg ((conversation_context.getD ConversationState.init).decay_context))

/-- C7 counterexample: a turn that starts with context score 1.0 and fails
after intent analysis returns a conversation context whose score has
already decayed to 0.8 — not the pre-turn context, contradicting "the chat
history and conversation context exactly as they were before the turn". -/
theorem chat_error_returns_decayed_context :
    (chatTurnFailingAfterIntentAnalysis "add those to my cart" (some [])
        (some ⟨[⟨some "p1", "Milk", "dairy", some 3⟩], "milk", 1⟩)
        "boom").conversation_context
      ≠ (⟨[⟨some "p1", "Milk", "dairy", some 3⟩], "milk", 1⟩ : ConversationState) := by
  intro h
  have hscore :
      (chatTurnFailingAfterIntentAnalysis "add those to my cart" (some [])
        (some ⟨[⟨some "p1", "Milk", "dairy", some 3⟩], "milk", 1⟩)
        "boom").conversation_context.context_score = (1 : ℚ) * (4 / 5) := rfl
  rw [h] at hscore
  norm_num at hscore

/-- C7 amended: when an exception escapes the workflow, `chat` returns
`success=false`, a response that is the fixed apology text followed by the
error message (so it contains both), the chat history exactly as passed in
(`[]` for `none`), and the shared conversation-context object in the state
it had when the exception escaped — which reflects any in-place mutations
(such as the once-per-turn decay) made by stages that ran before the
failure, and therefore need not equal the pre-turn context value. -/
theorem chat_error_path_spec (user_message e : String)
    (chat_history : Option (List ChatMsg)) (ctxAtFailure : ConversationState) :
    (chat user_message chat_history (.raises e ctxAtFailure)).success = false
    ∧ (chat user_message chat_history (.raises e ctxAtFailure)).response
        = "I apologize, but I encountered an error: " ++ e
    ∧ strContains (chat user_message chat_history (.raises e ctxAtFailure)).response
        "I apologize" = true
    ∧ strContains (chat user_message chat_history (.raises e ctxAtFailure)).response e = true
    ∧ (chat user_message chat_history (.raises e ctxAtFailure)).chat_history
        = chat_history.getD []
    ∧ (chat user_message chat_history (.raises e ctxAtFailure)).conversation_context
        = ctxAtFailure := by
  refine ⟨rfl, rfl, ?_, ?_, rfl, rfl⟩
  · show strContains ("I apologize, but I encountered an error: " ++ e) "I apologize" = true
    exact strContains_append_left "I apologize, but I encountered an error: " e
      "I apologize" (by decide)
  · exact strContains_append_right "I apologize, but I encountered an error: " e

/-! ## Per-user lock serialization
(`shopping_tools.py`: `get_user_lock`, lines 43–47, and the mutating tools
`add_product_to_list` / `remove_product_from_list` / `clear_shopping_list`,
lines 576–674, each of which runs
`async with get_user_lock(user_id): await api_client....`).

Two concurrent mutating calls for the same user are modelled as two tasks
(identified by `Bool`) running the program
acquire-lock → request-start → request-end → release-lock under an
arbitrary interleaving chosen by a scheduler. -/

/-- Observable network events: task `t`'s backend request starting and
finishing. -/
inductive Ev where
  | reqStart (t : Bool)
  | reqEnd (t : Bool)
deriving DecidableEq, Repr

/-- Joint state of the two tasks.  Program counter per task: 0 = before
`acquire`, 1 = lock held, request not yet issued, 2 = request in flight,
3 = request finished (lock still held), 4 = lock released / done.
`holder` is the current lock owner, `acq` the order in which tasks
acquired the lock, `trace` the observed order of network events. -/
structure LockSys where
  pcF : Nat
  pcT : Nat
  holder : Option Bool
  acq : List Bool
  trace : List Ev
deriving DecidableEq, Repr

def pcOf (s : LockSys) (t : Bool) : Nat := if t then s.pcT else s.pcF

def setPc (s : LockSys) (t : Bool) (v : Nat) : LockSys :=
  if t then { s with pcT := v } else { s with pcF := v }

/-- One scheduler step of task `t`.  A task trying to acquire a held lock
is blocked (no-op, as with a waiting `asyncio.Lock` acquirer), and a
finished task does nothing. -/
def lockStep (s : LockSys) (t : Bool) : LockSys :=
  match pcOf s t with
  | 0 =>
    match s.holder with
    | none => { setPc s t 1 with holder := some t, acq := s.acq ++ [t] }
    | some _ => s
  | 1 => { setPc s t 2 with trace := s.trace ++ [Ev.reqStart t] }
  | 2 => { setPc s t 3 with trace := s.trace ++ [Ev.reqEnd t] }
  | 3 => { setPc s t 4 with holder := none }
  | _ => s

def lockInit : LockSys := ⟨0, 0, none, [], []⟩

/-- Execute a scheduler's interleaving from the initial state. -/
def lockRun (sched : List Bool) : LockSys := sched.foldl lockStep lockInit

/-- The network events task `t` has emitted so far, as a function of its
program counter. -/
def evBlock (t : Bool) (p : Nat) : List Ev :=
  (if 2 ≤ p then [Ev.reqStart t] else []) ++ (if 3 ≤ p then [Ev.reqEnd t] else [])

theorem pcOf_setPc_self (s : LockSys) (t : Bool) (v : Nat) :
    pcOf (setPc s t v) t = v := by
  cases t <;> simp [pcOf, setPc]

theorem pcOf_setPc_ne (s : LockSys) (t : Bool) (v : Nat) (u : Bool) (h : u ≠ t) :
    pcOf (setPc s t v) u = pcOf s u := by
  cases t <;> cases u <;> simp_all [pcOf, setPc]

theorem setPc_holder (s : LockSys) (t : Bool) (v : Nat) :
    (setPc s t v).holder = s.holder := by
  cases t <;> rfl

theorem setPc_acq (s : LockSys) (t : Bool) (v : Nat) :
    (setPc s t v).acq = s.acq := by
  cases t <;> rfl

theorem setPc_trace (s : LockSys) (t : Bool) (v : Nat) :
    (setPc s t v).trace = s.trace := by
  cases t <;> rfl

theorem lockStep_acquire (s : LockSys) (t : Bool)
    (h0 : pcOf s t = 0) (hh : s.holder = none) :
    lockStep s t = { setPc s t 1 with holder := some t, acq := s.acq ++ [t] } := by
  unfold lockStep
  rw [h0, hh]

theorem lockStep_blocked (s : LockSys) (t u : Bool)
    (h0 : pcOf s t = 0) (hh : s.holder = some u) :
    lockStep s t = s := by
  unfold lockStep
  rw [h0, hh]

theorem lockStep_start (s : LockSys) (t : Bool) (h1 : pcOf s t = 1) :
    lockStep s t = { setPc s t 2 with trace := s.trace ++ [Ev.reqStart t] } := by
  unfold lockStep
  rw [h1]

theorem lockStep_finish (s : LockSys) (t : Bool) (h2 : pcOf s t = 2) :
    lockStep s t = { setPc s t 3 with trace := s.trace ++ [Ev.reqEnd t] } := by
  unfold lockStep
  rw [h2]

theorem lockStep_release (s : LockSys) (t : Bool) (h3 : pcOf s t = 3) :
    lockStep s t = { setPc s t 4 with holder := none } := by
  unfold lockStep
  rw [h3]

theorem lockStep_done (s : LockSys) (t : Bool) (h4 : pcOf s t = 4) :
    lockStep s t = s := by
  unfold lockStep
  rw [h4]

theorem pcOf_mk_holder_acq (x : LockSys) (h : Option Bool) (a : List Bool) (u : Bool) :
    pcOf { x with holder := h, acq := a } u = pcOf x u := rfl

theorem pcOf_mk_trace (x : LockSys) (tr : List Ev) (u : Bool) :
    pcOf { x with trace := tr } u = pcOf x u := rfl

theorem pcOf_mk_holder (x : LockSys) (h : Option Bool) (u : Bool) :
    pcOf { x with holder := h } u = pcOf x u := rfl

theorem bool_third (a b t : Bool) (h : a ≠ b) : t = a ∨ t = b := by
  cases a <;> cases b <;> cases t <;> simp_all

/-- The well-formedness of the acquisition log: at most the two tasks, each
at most once, and if a second task acquired then the first has released. -/
def acqShape (s : LockSys) : Prop :=
  match s.acq with
  | [] => True
  | [_] => True
  | [a, b] => a ≠ b ∧ pcOf s a = 4
  | _ => False

/-- Inductive invariant of the two-task lock system: program counters are
bounded; the lock is held by exactly the task whose pc is in the
acquire–release critical section (1–3); a task's pc is 0 exactly while it
has not yet acquired; the acquisition log is well formed; and the event
trace is the concatenation of the per-task event blocks in acquisition
order. -/
def LockInv (s : LockSys) : Prop :=
  (∀ u, pcOf s u ≤ 4)
  ∧ (∀ u, s.holder = some u ↔ (1 ≤ pcOf s u ∧ pcOf s u ≤ 3))
  ∧ (∀ u, pcOf s u = 0 ↔ u ∉ s.acq)
  ∧ acqShape s
  ∧ s.trace = (s.acq.map (fun u => evBlock u (pcOf s u))).flatten

theorem lockInv_init : LockInv lockInit := by
  refine ⟨?_, ?_, ?_, trivial, rfl⟩
  · intro u; cases u <;> simp [pcOf, lockInit]
  · intro u
    constructor
    · intro h
      exact Option.noConfusion h
    · intro h
      cases u <;> simp [pcOf, lockInit] at h
  · intro u
    cases u <;> simp [pcOf, lockInit]

theorem lockInv_acquire (s : LockSys) (t : Bool) (h : LockInv s)
    (h0 : pcOf s t = 0) (hh : s.holder = none) :
    LockInv { setPc s t 1 with holder := some t, acq := s.acq ++ [t] } := by
  obtain ⟨hpc4, hhold, hacq0, hshape, htrace⟩ := h
  have htnot : t ∉ s.acq := (hacq0 t).mp h0
  have hother : ∀ u, u ≠ t → pcOf s u = 0 ∨ pcOf s u = 4 := by
    intro u hu
    have hnot : ¬ (1 ≤ pcOf s u ∧ pcOf s u ≤ 3) := by
      intro hc
      have := (hhold u).mpr hc
      rw [hh] at this
      exact Option.noConfusion this
    have := hpc4 u
    omega
  refine ⟨?_, ?_, ?_, ?_, ?_⟩
  · intro u
    rw [pcOf_mk_holder_acq]
    by_cases hu : u = t
    · subst hu
      rw [pcOf_setPc_self]
      omega
    · rw [pcOf_setPc_ne s t 1 u hu]
      exact hpc4 u
  · intro u
    show some t = some u ↔ _
    rw [pcOf_mk_holder_acq]
    by_cases hu : u = t
    · subst hu
      rw [pcOf_setPc_self]
      simp
    · rw [pcOf_setPc_ne s t 1 u hu]
      constructor
      · intro heq
        injection heq with heq
        exact absurd heq.symm hu
      · intro hc
        rcases hother u hu with h' | h' <;> omega
  · intro u
    show _ ↔ u ∉ s.acq ++ [t]
    rw [pcOf_mk_holder_acq]
    by_cases hu : u = t
    · subst hu
      rw [pcOf_setPc_self]
      simp
    · rw [pcOf_setPc_ne s t 1 u hu, List.mem_append]
      simp only [List.mem_singleton, hu, or_false]
      exact hacq0 u
  · show acqShape _
    unfold acqShape at hshape ⊢
    rcases hacqe : s.acq with _ | ⟨a, _ | ⟨b, _ | ⟨c, rest⟩⟩⟩ <;> rw [hacqe] at hshape htnot
    · simp
    · have hat : a ≠ t := by
        intro hc
        apply htnot
        rw [hc]
        exact List.mem_singleton_self _
      have ha4 : pcOf s a = 4 := by
        have hne0 : pcOf s a ≠ 0 := by
          intro hc
          have := (hacq0 a).mp hc
          rw [hacqe] at this
          exact this (List.mem_singleton_self _)
        rcases hother a hat with h' | h'
        · exact absurd h' hne0
        · exact h'
      simp only [List.cons_append, List.nil_append]
      refine ⟨hat, ?_⟩
      rw [pcOf_mk_holder_acq, pcOf_setPc_ne s t 1 a hat, ha4]
    · exfalso
      rcases bool_third a b t hshape.1 with hc | hc
      · exact htnot (by rw [hc]; exact List.mem_cons_self _ _)
      · exact htnot (by rw [hc]; exact List.mem_cons_of_mem _ (List.mem_cons_self _ _))
    · exact absurd hshape (by simp)
  · have htr : ({ setPc s t 1 with holder := some t, acq := s.acq ++ [t] } : LockSys).trace
        = s.trace := setPc_trace s t 1
    have hacqr : ({ setPc s t 1 with holder := some t, acq := s.acq ++ [t] } : LockSys).acq
        = s.acq ++ [t] := rfl
    have hmap :
        s.acq.map (fun u =>
          evBlock u (pcOf { setPc s t 1 with holder := some t, acq := s.acq ++ [t] } u))
        = s.acq.map (fun u => evBlock u (pcOf s u)) := by
      apply List.map_congr_left
      intro u humem
      have hu : u ≠ t := by
        intro hc
        exact htnot (hc ▸ humem)
      rw [pcOf_mk_holder_acq, pcOf_setPc_ne s t 1 u hu]
    have hft :
        evBlock t (pcOf { setPc s t 1 with holder := some t, acq := s.acq ++ [t] } t)
          = [] := by
      rw [pcOf_mk_holder_acq, pcOf_setPc_self]
      rfl
    rw [htr, hacqr, List.map_append, List.flatten_append, hmap, List.map_singleton, hft]
    simpa using htrace

theorem evBlock_one (t : Bool) : evBlock t 1 = [] := rfl

theorem evBlock_two (t : Bool) : evBlock t 2 = [Ev.reqStart t] := rfl

theorem evBlock_three (t : Bool) : evBlock t 3 = [Ev.reqStart t, Ev.reqEnd t] := rfl

theorem evBlock_four (t : Bool) : evBlock t 4 = [Ev.reqStart t, Ev.reqEnd t] := rfl

theorem pcOf_trace_upd_self (s : LockSys) (t : Bool) (v : Nat) (tr : List Ev) :
    pcOf { setPc s t v with trace := tr } t = v := by
  cases t <;> simp [pcOf, setPc]

theorem pcOf_trace_upd_ne (s : LockSys) (t : Bool) (v : Nat) (tr : List Ev)
    (u : Bool) (h : u ≠ t) :
    pcOf { setPc s t v with trace := tr } u = pcOf s u := by
  cases t <;> cases u <;> simp_all [pcOf, setPc]

theorem pcOf_holder_upd_self (s : LockSys) (t : Bool) (v : Nat) (h : Option Bool) :
    pcOf { setPc s t v with holder := h } t = v := by
  cases t <;> simp [pcOf, setPc]

theorem pcOf_holder_upd_ne (s : LockSys) (t : Bool) (v : Nat) (ho : Option Bool)
    (u : Bool) (h : u ≠ t) :
    pcOf { setPc s t v with holder := ho } u = pcOf s u := by
  cases t <;> cases u <;> simp_all [pcOf, setPc]

theorem lockInv_start (s : LockSys) (t : Bool) (h : LockInv s) (h1 : pcOf s t = 1) :
    LockInv { setPc s t 2 with trace := s.trace ++ [Ev.reqStart t] } := by
  obtain ⟨hpc4, hhold, hacq0, hshape, htrace⟩ := h
  have hheld : s.holder = some t := (hhold t).mpr ⟨by omega, by omega⟩
  have htmem : t ∈ s.acq := by
    by_contra hc
    have := (hacq0 t).mpr hc
    omega
  have hothernot : ∀ u, u ≠ t → ¬ (1 ≤ pcOf s u ∧ pcOf s u ≤ 3) := by
    intro u hu hc
    have := (hhold u).mpr hc
    rw [hheld] at this
    injection this with this
    exact hu this.symm
  have hholdr : ({ setPc s t 2 with trace := s.trace ++ [Ev.reqStart t] } : LockSys).holder
      = some t := by
    show (setPc s t 2).holder = some t
    rw [setPc_holder]
    exact hheld
  have hacqr : ({ setPc s t 2 with trace := s.trace ++ [Ev.reqStart t] } : LockSys).acq
      = s.acq := setPc_acq s t 2
  refine ⟨?_, ?_, ?_, ?_, ?_⟩
  · intro u
    rw [pcOf_mk_trace]
    by_cases hu : u = t
    · subst hu
      rw [pcOf_setPc_self]
      omega
    · rw [pcOf_setPc_ne s t 2 u hu]
      exact hpc4 u
  · intro u
    rw [hholdr, pcOf_mk_trace]
    by_cases hu : u = t
    · subst hu
      rw [pcOf_setPc_self]
      simp
    · rw [pcOf_setPc_ne s t 2 u hu]
      constructor
      · intro heq
        injection heq with heq
        exact absurd heq.symm hu
      · intro hc
        exact absurd hc (hothernot u hu)
  · intro u
    rw [pcOf_mk_trace, hacqr]
    by_cases hu : u = t
    · subst hu
      rw [pcOf_setPc_self]
      simp [htmem]
    · rw [pcOf_setPc_ne s t 2 u hu]
      exact hacq0 u
  · unfold acqShape at hshape ⊢
    rw [hacqr]
    rcases hacqe : s.acq with _ | ⟨a, _ | ⟨b, _ | ⟨c, rest⟩⟩⟩ <;> rw [hacqe] at hshape
    · exact trivial
    · exact trivial
    · have hat : a ≠ t := by
        intro hc
        rw [← hc] at h1
        omega
      exact ⟨hshape.1, by rw [pcOf_mk_trace, pcOf_setPc_ne s t 2 a hat]; exact hshape.2⟩
    · exact absurd hshape (by simp)
  · show s.trace ++ [Ev.reqStart t] = _
    rw [hacqr]
    rcases hacqe : s.acq with _ | ⟨a, _ | ⟨b, _ | ⟨c, rest⟩⟩⟩
      <;> rw [hacqe] at htrace htmem <;> unfold acqShape at hshape <;> rw [hacqe] at hshape
    · simp at htmem
    · have hat : t = a := by simpa using htmem
      subst hat
      simp only [List.map_cons, List.map_nil, List.flatten_cons, List.flatten_nil,
        List.append_nil] at htrace ⊢
      rw [pcOf_mk_trace, pcOf_setPc_self, evBlock_two]
      rw [h1, evBlock_one] at htrace
      rw [htrace]
      rfl
    · rcases bool_third a b t hshape.1 with hc | hc
      · exfalso
        have h4 := hshape.2
        rw [← hc] at h4
        omega
      · subst hc
        have hat : a ≠ t := hshape.1
        have ha4 : pcOf s a = 4 := hshape.2
        simp only [List.map_cons, List.map_nil, List.flatten_cons, List.flatten_nil,
          List.append_nil] at htrace ⊢
        rw [pcOf_trace_upd_ne s t 2 (s.trace ++ [Ev.reqStart t]) a hat,
          pcOf_trace_upd_self s t 2 (s.trace ++ [Ev.reqStart t]),
          ha4, evBlock_four, evBlock_two]
        rw [ha4, h1, evBlock_one, evBlock_four, List.append_nil] at htrace
        rw [htrace]
    · exact absurd hshape (by simp)

theorem lockInv_finish (s : LockSys) (t : Bool) (h : LockInv s) (h2 : pcOf s t = 2) :
    LockInv { setPc s t 3 with trace := s.trace ++ [Ev.reqEnd t] } := by
  obtain ⟨hpc4, hhold, hacq0, hshape, htrace⟩ := h
  have hheld : s.holder = some t := (hhold t).mpr ⟨by omega, by omega⟩
  have htmem : t ∈ s.acq := by
    by_contra hc
    have := (hacq0 t).mpr hc
    omega
  have hothernot : ∀ u, u ≠ t → ¬ (1 ≤ pcOf s u ∧ pcOf s u ≤ 3) := by
    intro u hu hc
    have := (hhold u).mpr hc
    rw [hheld] at this
    injection this with this
    exact hu this.symm
  have hholdr : ({ setPc s t 3 with trace := s.trace ++ [Ev.reqEnd t] } : LockSys).holder
      = some t := by
    show (setPc s t 3).holder = some t
    rw [setPc_holder]
    exact hheld
  have hacqr : ({ setPc s t 3 with trace := s.trace ++ [Ev.reqEnd t] } : LockSys).acq
      = s.acq := setPc_acq s t 3
  refine ⟨?_, ?_, ?_, ?_, ?_⟩
  · intro u
    by_cases hu : u = t
    · subst hu
      rw [pcOf_trace_upd_self]
      omega
    · rw [pcOf_trace_upd_ne s t 3 _ u hu]
      exact hpc4 u
  · intro u
    rw [hholdr]
    by_cases hu : u = t
    · subst hu
      rw [pcOf_trace_upd_self]
      simp
    · rw [pcOf_trace_upd_ne s t 3 _ u hu]
      constructor
      · intro heq
        injection heq with heq
        exact absurd heq.symm hu
      · intro hc
        exact absurd hc (hothernot u hu)
  · intro u
    rw [hacqr]
    by_cases hu : u = t
    · subst hu
      rw [pcOf_trace_upd_self]
      simp [htmem]
    · rw [pcOf_trace_upd_ne s t 3 _ u hu]
      exact hacq0 u
  · unfold acqShape at hshape ⊢
    rw [hacqr]
    rcases hacqe : s.acq with _ | ⟨a, _ | ⟨b, _ | ⟨c, rest⟩⟩⟩ <;> rw [hacqe] at hshape
    · exact trivial
    · exact trivial
    · have hat : a ≠ t := by
        intro hc
        have h4 := hshape.2
        rw [hc] at h4
        omega
      exact ⟨hshape.1, by rw [pcOf_trace_upd_ne s t 3 _ a hat]; exact hshape.2⟩
    · exact absurd hshape (by simp)
  · show s.trace ++ [Ev.reqEnd t] = _
    rw [hacqr]
    rcases hacqe : s.acq with _ | ⟨a, _ | ⟨b, _ | ⟨c, rest⟩⟩⟩
      <;> rw [hacqe] at htrace htmem <;> unfold acqShape at hshape <;> rw [hacqe] at hshape
    · simp at htmem
    · have hat : t = a := by simpa using htmem
      subst hat
      simp only [List.map_cons, List.map_nil, List.flatten_cons, List.flatten_nil,
        List.append_nil] at htrace ⊢
      rw [pcOf_trace_upd_self, evBlock_three]
      rw [h2, evBlock_two] at htrace
      simp [htrace]
    · rcases bool_third a b t hshape.1 with hc | hc
      · exfalso
        have h4 := hshape.2
        rw [← hc] at h4
        omega
      · subst hc
        have hat : a ≠ t := hshape.1
        have ha4 : pcOf s a = 4 := hshape.2
        simp only [List.map_cons, List.map_nil, List.flatten_cons, List.flatten_nil,
          List.append_nil] at htrace ⊢
        rw [pcOf_trace_upd_ne s t 3 (s.trace ++ [Ev.reqEnd t]) a hat,
          pcOf_trace_upd_self s t 3 (s.trace ++ [Ev.reqEnd t]),
          ha4, evBlock_four, evBlock_three]
        rw [ha4, h2, evBlock_two, evBlock_four] at htrace
        simp [htrace]
    · exact absurd hshape (by simp)

theorem lockInv_release (s : LockSys) (t : Bool) (h : LockInv s) (h3 : pcOf s t = 3) :
    LockInv { setPc s t 4 with holder := none } := by
  obtain ⟨hpc4, hhold, hacq0, hshape, htrace⟩ := h
  have hheld : s.holder = some t := (hhold t).mpr ⟨by omega, by omega⟩
  have htmem : t ∈ s.acq := by
    by_contra hc
    have := (hacq0 t).mpr hc
    omega
  have hothernot : ∀ u, u ≠ t → ¬ (1 ≤ pcOf s u ∧ pcOf s u ≤ 3) := by
    intro u hu hc
    have := (hhold u).mpr hc
    rw [hheld] at this
    injection this with this
    exact hu this.symm
  have hacqr : ({ setPc s t 4 with holder := none } : LockSys).acq
      = s.acq := setPc_acq s t 4
  have htrr : ({ setPc s t 4 with holder := none } : LockSys).trace
      = s.trace := setPc_trace s t 4
  refine ⟨?_, ?_, ?_, ?_, ?_⟩
  · intro u
    by_cases hu : u = t
    · subst hu
      rw [pcOf_holder_upd_self]
    · rw [pcOf_holder_upd_ne s t 4 none u hu]
      exact hpc4 u
  · intro u
    show none = some u ↔ _
    constructor
    · intro heq
      exact Option.noConfusion heq
    · intro hc
      by_cases hu : u = t
      · subst hu
        rw [pcOf_holder_upd_self] at hc
        omega
      · rw [pcOf_holder_upd_ne s t 4 none u hu] at hc
        exact absurd hc (hothernot u hu)
  · intro u
    rw [hacqr]
    by_cases hu : u = t
    · subst hu
      rw [pcOf_holder_upd_self]
      simp [htmem]
    · rw [pcOf_holder_upd_ne s t 4 none u hu]
      exact hacq0 u
  · unfold acqShape at hshape ⊢
    rw [hacqr]
    rcases hacqe : s.acq with _ | ⟨a, _ | ⟨b, _ | ⟨c, rest⟩⟩⟩ <;> rw [hacqe] at hshape
    · exact trivial
    · exact trivial
    · have hat : a ≠ t := by
        intro hc
        have h4 := hshape.2
        rw [hc] at h4
        omega
      exact ⟨hshape.1, by rw [pcOf_holder_upd_ne s t 4 none a hat]; exact hshape.2⟩
    · exact absurd hshape (by simp)
  · rw [htrr, hacqr]
    have hmap :
        s.acq.map (fun u => evBlock u (pcOf ({ setPc s t 4 with holder := none } : LockSys) u))
        = s.acq.map (fun u => evBlock u (pcOf s u)) := by
      apply List.map_congr_left
      intro u _
      by_cases hu : u = t
      · subst hu
        rw [pcOf_holder_upd_self, h3, evBlock_four, evBlock_three]
      · rw [pcOf_holder_upd_ne s t 4 none u hu]
    rw [hmap]
    exact htrace

theorem lockInv_step (s : LockSys) (t : Bool) (h : LockInv s) : LockInv (lockStep s t) := by
  have hb : pcOf s t = 0 ∨ pcOf s t = 1 ∨ pcOf s t = 2 ∨ pcOf s t = 3 ∨ pcOf s t = 4 := by
    have := h.1 t
    omega
  rcases hb with h0 | h1 | h2 | h3 | h4
  · rcases hh : s.holder with _ | w
    · rw [lockStep_acquire s t h0 hh]
      exact lockInv_acquire s t h h0 hh
    · rw [lockStep_blocked s t w h0 hh]
      exact h
  · rw [lockStep_start s t h1]
    exact lockInv_start s t h h1
  · rw [lockStep_finish s t h2]
    exact lockInv_finish s t h h2
  · rw [lockStep_release s t h3]
    exact lockInv_release s t h h3
  · rw [lockStep_done s t h4]
    exact h

theorem lockInv_run (sched : List Bool) : LockInv (lockRun sched) := by
  suffices hgen : ∀ (l : List Bool) (s : LockSys), LockInv s → LockInv (l.foldl lockStep s) by
    exact hgen sched lockInit lockInv_init
  intro l
  induction l with
  | nil => intro s hs; exact hs
  | cons t ts ih =>
    intro s hs
    exact ih _ (lockInv_step s t hs)

/-- C8: under every interleaving of two concurrent same-user mutating calls,
each task acquires the per-user lock at most once (`Nodup`), and the
observed network-event trace is a prefix of the concatenation, in lock
acquisition order, of the complete per-task request blocks
`[reqStart t, reqEnd t]` — so the two backend requests never interleave and
the observed request order equals the order of entry into the lock. -/
theorem user_lock_serializes_requests (sched : List Bool) :
    (lockRun sched).acq.Nodup
    ∧ ∃ k, (lockRun sched).trace
        = (((lockRun sched).acq.map
            (fun t => [Ev.reqStart t, Ev.reqEnd t])).flatten).take k := by
  obtain ⟨hpc4, hhold, hacq0, hshape, htrace⟩ := lockInv_run sched
  unfold acqShape at hshape
  rcases hacqe : (lockRun sched).acq with _ | ⟨a, _ | ⟨b, _ | ⟨c, rest⟩⟩⟩
    <;> rw [hacqe] at hshape htrace
  · refine ⟨List.nodup_nil, 0, ?_⟩
    simpa using htrace
  · refine ⟨List.nodup_singleton a, ?_⟩
    simp only [List.map_cons, List.map_nil, List.flatten_cons, List.flatten_nil,
      List.append_nil] at htrace ⊢
    by_cases hc3 : 3 ≤ pcOf (lockRun sched) a
    · refine ⟨2, ?_⟩
      rw [htrace]
      simp [evBlock, hc3, (by omega : 2 ≤ pcOf (lockRun sched) a)]
    · by_cases hc2 : 2 ≤ pcOf (lockRun sched) a
      · refine ⟨1, ?_⟩
        rw [htrace]
        simp [evBlock, hc3, hc2]
      · refine ⟨0, ?_⟩
        rw [htrace]
        simp [evBlock, hc3, hc2]
  · refine ⟨by simp [hshape.1], ?_⟩
    have ha4 : pcOf (lockRun sched) a = 4 := hshape.2
    simp only [List.map_cons, List.map_nil, List.flatten_cons, List.flatten_nil,
      List.append_nil] at htrace ⊢
    rw [ha4, evBlock_four] at htrace
    by_cases hc3 : 3 ≤ pcOf (lockRun sched) b
    · refine ⟨4, ?_⟩
      rw [htrace]
      simp [evBlock, hc3, (by omega : 2 ≤ pcOf (lockRun sched) b)]
    · by_cases hc2 : 2 ≤ pcOf (lockRun sched) b
      · refine ⟨3, ?_⟩
        rw [htrace]
        simp [evBlock, hc3, hc2]
      · refine ⟨2, ?_⟩
        rw [htrace]
        simp [evBlock, hc3, hc2]
  · exact absurd hshape (by simp)
